import Mathlib

/-!
Shallow embedding of the migretti PostgreSQL schema-migration engine
(src/migretti/core.py, squash.py, io_utils.py) and proofs about it.

Modelling conventions:
- Python strings are Lean `String`; the line/strip/join operations of the
  source are re-implemented over `List Char` so that they compute in the
  kernel (they mirror `str.splitlines`, `str.strip`, `str.startswith`,
  `"\n".join` for the ASCII inputs the engine handles).
- The database ledger `_migrations` is a list of `Row`; `_migrations_log`
  is a list of `LogRow`.  SQL queries of core.py become list operations.
- Migration SQL sent to the database is not interpreted: an oracle
  `db : String -> Bool` says whether a statement succeeds, and every
  statement handed to the database is recorded in an `executed` trace.
- The SQL statement splitter (the `sqlparse.split` library call) is a
  parameter `sqlsplit : String -> List String`, and SHA-256
  (`hashlib.sha256(...).hexdigest()` in `calculate_checksum`) is a
  parameter `sha : String -> String`.
- Connections, advisory locks, `ensure_schema`, hooks, logging and the
  `dry_run` branches are outside the claims treated here; the functions
  below model the `dry_run=False` paths of the orchestrator entry points.
- `os.getlogin()` is modelled as the constant fallback string "system".
-/

namespace Migretti

/-- Python `str.splitlines` for newline-separated ASCII text, over the
character list: each newline terminates a line, and a final segment is
emitted only when non-empty. -/
def splitlinesAux : List Char → List Char → List String
  | [], acc => if acc.isEmpty then [] else [⟨acc.reverse⟩]
  | c :: rest, acc =>
    if c = '\n' then ⟨acc.reverse⟩ :: splitlinesAux rest []
    else splitlinesAux rest (c :: acc)

/-- Python `content.splitlines()` (for texts whose only line break is \n). -/
def splitlines (s : String) : List String := splitlinesAux s.data []

/-- Python `str.strip()`: drop leading and trailing whitespace. -/
def pyStrip (s : String) : String :=
  ⟨((s.data.dropWhile Char.isWhitespace).reverse.dropWhile Char.isWhitespace).reverse⟩

/-- Python `s.startswith(pre)`. -/
def startsWithStr (s pre : String) : Bool := pre.data.isPrefixOf s.data

/-- Python `s.endswith(suf)`. -/
def endsWithStr (s suf : String) : Bool := suf.data.isSuffixOf s.data

/-- Python `"\n".join(lines)`. -/
def joinNl : List String → String
  | [] => ""
  | [a] => a
  | a :: rest => a ++ "\n" ++ joinNl rest

/-- Python `s[:-n]`: drop the last n characters. -/
def dropEnd (s : String) (n : Nat) : String := ⟨s.data.take (s.data.length - n)⟩

/-- Lexicographic comparison of character lists by code point; this is how
Python compares the id strings when sorting migration files. -/
def charListLe : List Char → List Char → Bool
  | [], _ => true
  | _ :: _, [] => false
  | a :: as, b :: bs =>
    if a.toNat < b.toNat then true
    else if b.toNat < a.toNat then false
    else charListLe as bs

/-- Python string comparison `a <= b`. -/
def strLe (a b : String) : Bool := charListLe a.data b.data

/-- Unfolding of `charListLe` on two cons cells. -/
theorem charListLe_cons_iff {a b : Char} {as bs : List Char} :
    charListLe (a :: as) (b :: bs) = true ↔
      a.toNat < b.toNat ∨ (a.toNat = b.toNat ∧ charListLe as bs = true) := by
  simp only [charListLe]
  split_ifs with h1 h2
  · simp [h1]
  · simp only [Bool.false_eq_true, false_iff]
    rintro (h | ⟨h, _⟩) <;> omega
  · have hab : a.toNat = b.toNat := by omega
    simp [hab]

theorem charListLe_refl : ∀ as : List Char, charListLe as as = true
  | [] => rfl
  | _ :: as => charListLe_cons_iff.mpr (.inr ⟨rfl, charListLe_refl as⟩)

theorem charListLe_total : ∀ as bs : List Char,
    charListLe as bs = true ∨ charListLe bs as = true
  | [], _ => .inl rfl
  | _ :: _, [] => .inr rfl
  | a :: as, b :: bs => by
    rcases Nat.lt_trichotomy a.toNat b.toNat with h | h | h
    · exact .inl (charListLe_cons_iff.mpr (.inl h))
    · rcases charListLe_total as bs with h2 | h2
      · exact .inl (charListLe_cons_iff.mpr (.inr ⟨h, h2⟩))
      · exact .inr (charListLe_cons_iff.mpr (.inr ⟨h.symm, h2⟩))
    · exact .inr (charListLe_cons_iff.mpr (.inl h))

theorem charListLe_trans : ∀ {as bs cs : List Char},
    charListLe as bs = true → charListLe bs cs = true → charListLe as cs = true
  | [], _, _, _, _ => rfl
  | _ :: _, [], _, h1, _ => by simp [charListLe] at h1
  | _ :: _, _ :: _, [], _, h2 => by simp [charListLe] at h2
  | a :: as, b :: bs, c :: cs, h1, h2 => by
    rcases charListLe_cons_iff.mp h1 with hab | ⟨hab, hab2⟩ <;>
      rcases charListLe_cons_iff.mp h2 with hbc | ⟨hbc, hbc2⟩
    · exact charListLe_cons_iff.mpr (.inl (by omega))
    · exact charListLe_cons_iff.mpr (.inl (by omega))
    · exact charListLe_cons_iff.mpr (.inl (by omega))
    · exact charListLe_cons_iff.mpr (.inr ⟨by omega, charListLe_trans hab2 hbc2⟩)

/-- Helper loop of the script parser: walks the lines, tracking the current
section, the accumulated up and down lines and the no-transaction flag,
mirroring the for loop of `parse_migration_sql` in core.py. -/
def parseLoop : List String → Option String → List String → List String → Bool →
    List String × List String × Bool
  | [], _, up, down, nt => (up, down, nt)
  | line :: rest, cur, up, down, nt =>
    let stripped := pyStrip line
    if startsWithStr stripped "-- migrate: up" then
      parseLoop rest (some "up") up down nt
    else if startsWithStr stripped "-- migrate: down" then
      parseLoop rest (some "down") up down nt
    else if startsWithStr stripped "-- migrate: no-transaction" then
      parseLoop rest cur up down true
    else if cur = some "up" then
      parseLoop rest cur (up ++ [line]) down nt
    else if cur = some "down" then
      parseLoop rest cur up (down ++ [line]) nt
    else
      parseLoop rest cur up down nt

/-- core.py `parse_migration_sql(content)`: returns
`(up_sql, down_sql, no_transaction)`.  Note: the source function never
raises; a script with no markers simply yields empty sections. -/
def parse_migration_sql (content : String) : String × String × Bool :=
  match parseLoop (splitlines content) none [] [] false with
  | (up, down, nt) => (joinNl up, joinNl down, nt)

/-- One migration file after corpus discovery: the id and name extracted
from the filename, and the file content (the source stores the path and
reads the file later; file content stands in for both). -/
structure Mig where
  id : String
  name : String
  content : String
deriving DecidableEq

/-- Python `basename.split("_", 1)` on the character list: split at the
first underscore, or `none` when there is no underscore. -/
def splitOnFirstUnderscore : List Char → Option (List Char × List Char)
  | [] => none
  | c :: rest =>
    if c = '_' then some ([], rest)
    else
      match splitOnFirstUnderscore rest with
      | none => none
      | some (l, r) => some (c :: l, r)

/-- Filename-to-migration extraction of `get_migration_files`: names with
no underscore are skipped; the trailing ".sql" is stripped from the slug. -/
def migOfFile (f : String × String) : Option Mig :=
  match splitOnFirstUnderscore f.1.data with
  | none => none
  | some (idChars, restChars) =>
    let tail : String := ⟨restChars⟩
    let name := if endsWithStr tail ".sql" then dropEnd tail 4 else tail
    some ⟨⟨idChars⟩, name, f.2⟩

/-- Ascending ordering of migrations by id string, the key of the
`migrations.sort(key=lambda x: x[0])` call. -/
def migLe (a b : Mig) : Prop := strLe a.id b.id = true

instance : DecidableRel migLe :=
  fun a b => inferInstanceAs (Decidable (strLe a.id b.id = true))

instance : IsTotal Mig migLe := ⟨fun a b => charListLe_total a.id.data b.id.data⟩

instance : IsTrans Mig migLe := ⟨fun _ _ _ h1 h2 => charListLe_trans h1 h2⟩

/-- core.py `get_migration_files()`: the input is the directory listing as
(basename, content) pairs; only `*.sql` names are globbed, names without
an underscore are skipped, and the result is sorted ascending by id. -/
def get_migration_files (files : List (String × String)) : List Mig :=
  List.insertionSort migLe
    ((files.filter (fun f => endsWithStr f.1 ".sql")).filterMap migOfFile)

/-- One row of the `_migrations` ledger table.  `appliedAt` is a logical
timestamp standing in for the TIMESTAMPTZ default NOW(). -/
structure Row where
  id : String
  name : String
  checksum : String
  status : String
  appliedAt : Nat
deriving DecidableEq

/-- One row of the append-only `_migrations_log` audit table (the serial
primary key and performed_at column carry no information the claims use). -/
structure LogRow where
  migration_id : String
  name : String
  action : String
  performed_by : String
  checksum : String
deriving DecidableEq

/-- core.py `get_applied_migrations(conn)`: ids of rows with
status = applied (the source returns them as a set, used only for
membership tests). -/
def get_applied_migrations (ledger : List Row) : List String :=
  (ledger.filter (fun r => r.status == "applied")).map (·.id)

/-- core.py `check_failed_migrations(conn)`: (id, name) of rows with
status = failed. -/
def check_failed_migrations (ledger : List Row) : List (String × String) :=
  (ledger.filter (fun r => r.status == "failed")).map (fun r => (r.id, r.name))

/-- The SQL `ORDER BY applied_at DESC, id DESC` ordering: row `a` sorts
before row `b` when the key of `b` is at most the key of `a`. -/
def newerB (a b : Row) : Bool :=
  decide (b.appliedAt < a.appliedAt) ||
    (decide (b.appliedAt = a.appliedAt) && strLe b.id a.id)

def newer (a b : Row) : Prop := newerB a b = true

instance : DecidableRel newer :=
  fun a b => inferInstanceAs (Decidable (newerB a b = true))

theorem newerB_refl (a : Row) : newerB a a = true := by
  simp [newerB, strLe, charListLe_refl]

instance : IsTotal Row newer := by
  refine ⟨fun a b => ?_⟩
  simp only [newer, newerB, Bool.or_eq_true, Bool.and_eq_true, decide_eq_true_eq]
  rcases Nat.lt_trichotomy a.appliedAt b.appliedAt with h | h | h
  · right; left; exact h
  · rcases charListLe_total a.id.data b.id.data with h2 | h2
    · right; right; exact ⟨h, h2⟩
    · left; right; exact ⟨h.symm, h2⟩
  · left; left; exact h

instance : IsTrans Row newer := by
  refine ⟨fun a b c h1 h2 => ?_⟩
  simp only [newer, newerB, Bool.or_eq_true, Bool.and_eq_true, decide_eq_true_eq] at h1 h2 ⊢
  rcases h1 with h1 | ⟨h1, h1b⟩ <;> rcases h2 with h2 | ⟨h2, h2b⟩
  · left; omega
  · left; omega
  · left; omega
  · right; exact ⟨by omega, charListLe_trans h2b h1b⟩

/-- Rows sorted newest first, the `ORDER BY applied_at DESC, id DESC`
result order. -/
def sortNewestFirst (l : List Row) : List Row := List.insertionSort newer l

/-- core.py `get_applied_migrations_details(conn)`: rows with
status = applied, newest first (the source projects (id, name, checksum);
the full rows are kept here). -/
def get_applied_migrations_details (ledger : List Row) : List Row :=
  sortNewestFirst (ledger.filter (fun r => r.status == "applied"))

/-- core.py `get_head(env)`: the query selects id, name, applied_at of the
top row under `ORDER BY applied_at DESC, id DESC LIMIT 1` — over ALL rows;
there is no `WHERE status = applied` filter in the source. -/
def get_head (ledger : List Row) : Option (String × String × Nat) :=
  (sortNewestFirst ledger).head?.map (fun r => (r.id, r.name, r.appliedAt))

/-- core.py `get_migration_status(env)`: one entry (id, name, status) per
entry of `get_migration_files()`; the status is the ledger status when the
id has a ledger row, else "pending".  Ids only present in the ledger are
not iterated.  The dict built from the query keeps the last row per id. -/
def get_migration_status (ledger : List Row) (files : List (String × String)) :
    List (String × String × String) :=
  (get_migration_files files).map (fun m =>
    match ledger.reverse.find? (fun r => r.id == m.id) with
    | some r => (m.id, m.name, r.status)
    | none => (m.id, m.name, "pending"))

/-- The checksum the `applied_map` dict of `verify_checksums` stores for an
id (the dict keeps the last entry per id). -/
def appliedChecksum (ledger : List Row) (id : String) : Option String :=
  ((get_applied_migrations_details ledger).reverse.find? (fun r => r.id == id)).map
    (·.checksum)

/-- Issue-collection loop of `verify_checksums`: for each corpus file whose
id is in the applied map, a mismatching recomputed checksum appends an
issue line naming the migration. -/
def verifyIssues (sha : String → String) (lookupCs : String → Option String) :
    List Mig → List String
  | [] => []
  | m :: rest =>
    match lookupCs m.id with
    | some stored =>
      if sha m.content = stored then verifyIssues sha lookupCs rest
      else ("Checksum mismatch for " ++ m.id ++ " (" ++ m.name ++ ")") ::
        verifyIssues sha lookupCs rest
    | none => verifyIssues sha lookupCs rest

/-- core.py `verify_checksums(env)`: returns whether all checks passed plus
the issue lines (the source logs each issue and returns the boolean). -/
def verify_checksums (sha : String → String) (files : List (String × String))
    (ledger : List Row) : Bool × List String :=
  match verifyIssues sha (appliedChecksum ledger) (get_migration_files files) with
  | [] => (true, [])
  | issues => (false, issues)

/-- Errors surfaced by the engine (the source raises RuntimeError or
propagates driver errors; the constructors record which abort fired). -/
inductive MgError where
  | dirtyState (failed : List (String × String))
  | missingFile (id : String)
  | sqlError (stmt : String)
  | typeErr (msg : String)
deriving DecidableEq

/-- The database-side state an engine run threads: the two ledger tables,
the trace of migration SQL statements handed to the database, the
connection autocommit flag and a logical clock for NOW(). -/
structure EngineState where
  ledger : List Row
  auditLog : List LogRow
  executed : List String
  autocommit : Bool
  clock : Nat
deriving DecidableEq

/-- Outcome of an engine entry point: the error that propagated (if any)
and the state left behind. -/
structure RunResult where
  err : Option MgError
  st : EngineState
deriving DecidableEq

/-- The `INSERT ... ON CONFLICT (id) DO UPDATE SET status = applied,
checksum = EXCLUDED.checksum, applied_at = NOW()` upsert of the
non-transactional apply path. -/
def upsertApplied (ledger : List Row) (id name cs : String) (now : Nat) : List Row :=
  if ledger.any (fun r => r.id == id) then
    ledger.map (fun r =>
      if r.id == id then { r with status := "applied", checksum := cs, appliedAt := now }
      else r)
  else ledger ++ [⟨id, name, cs, "applied", now⟩]

/-- The `INSERT ... ON CONFLICT (id) DO UPDATE SET status = failed,
applied_at = NOW()` upsert of the failed marker (the conflict branch does
not touch the checksum). -/
def upsertFailed (ledger : List Row) (id name cs : String) (now : Nat) : List Row :=
  if ledger.any (fun r => r.id == id) then
    ledger.map (fun r =>
      if r.id == id then { r with status := "failed", appliedAt := now } else r)
  else ledger ++ [⟨id, name, cs, "failed", now⟩]

/-- `DELETE FROM _migrations WHERE id = %s`. -/
def deleteRow (ledger : List Row) (id : String) : List Row :=
  ledger.filter (fun r => !(r.id == id))

/-- Run a statement sequence against the db oracle: returns the statements
actually handed to the database (execution stops at the first failure) and
the failing statement if any. -/
def runStmts (db : String → Bool) : List String → List String × Option String
  | [] => ([], none)
  | s :: rest =>
    if db s then
      match runStmts db rest with
      | (es, e) => (s :: es, e)
    else ([s], some s)

/-- The statement list a non-transactional execution hands to the
database: nothing when the section is blank, else the split statements
with blank pieces dropped. -/
def splitStmts (sqlsplit : String → List String) (sql : String) : List String :=
  if pyStrip sql ≠ "" then (sqlsplit sql).filter (fun s => pyStrip s ≠ "") else []

/-- The non-transactional branch of the apply body: autocommit is switched
on, the statements run one by one; a failure upserts the failed marker and
re-raises with the autocommit flag left set; success upserts the applied
row, appends the audit row and resets autocommit. -/
def applyStepNoTxn (db : String → Bool) (sqlsplit : String → List String)
    (sha : String → String) (st : EngineState) (m : Mig) (up_sql : String) : RunResult :=
  match runStmts db (splitStmts sqlsplit up_sql) with
  | (issued, some s) =>
    ⟨some (.sqlError s),
      { st with
        executed := st.executed ++ issued,
        ledger := upsertFailed st.ledger m.id m.name (sha m.content) st.clock,
        autocommit := true,
        clock := st.clock + 1 }⟩
  | (issued, none) =>
    ⟨none,
      { st with
        executed := st.executed ++ issued,
        ledger := upsertApplied st.ledger m.id m.name (sha m.content) st.clock,
        auditLog := st.auditLog ++ [⟨m.id, m.name, "UP", "system", sha m.content⟩],
        autocommit := false,
        clock := st.clock + 1 }⟩

/-- The transactional branch of the apply body: the up SQL (when
non-blank), the plain ledger INSERT and the audit INSERT commit or roll
back as one block. -/
def applyStepTxn (db : String → Bool) (sha : String → String) (st : EngineState)
    (m : Mig) (up_sql : String) : RunResult :=
  let st1 := if pyStrip up_sql ≠ "" then { st with executed := st.executed ++ [up_sql] } else st
  if pyStrip up_sql ≠ "" ∧ db up_sql = false then
    ⟨some (.sqlError up_sql), st1⟩
  else if st.ledger.any (fun r => r.id == m.id) then
    -- the plain INSERT hits the primary-key constraint and the
    -- transaction aborts (the ledger of st1 is that of st)
    ⟨some (.sqlError "INSERT INTO _migrations"), st1⟩
  else
    ⟨none,
      { st1 with
        ledger := st.ledger ++ [⟨m.id, m.name, sha m.content, "applied", st.clock⟩],
        clock := st.clock + 1,
        auditLog := st.auditLog ++ [⟨m.id, m.name, "UP", "system", sha m.content⟩] }⟩

/-- The per-migration body of the apply loop (`dry_run=False` path of
`apply_migrations`): parse, checksum, then one of the two execution
modes. -/
def applyStep (db : String → Bool) (sqlsplit : String → List String)
    (sha : String → String) (st : EngineState) (m : Mig) : RunResult :=
  let p := parse_migration_sql m.content
  if p.2.2 then applyStepNoTxn db sqlsplit sha st m p.1
  else applyStepTxn db sha st m p.1

/-- The apply loop over the pending migrations: stops at the first error. -/
def applyLoop (db : String → Bool) (sqlsplit : String → List String)
    (sha : String → String) (st : EngineState) : List Mig → RunResult
  | [] => ⟨none, st⟩
  | m :: rest =>
    match applyStep db sqlsplit sha st m with
    | ⟨some e, st1⟩ => ⟨some e, st1⟩
    | ⟨none, st1⟩ => applyLoop db sqlsplit sha st1 rest

/-- The `if limit: pending = pending[:limit]` truncation: a limit of 0 is
falsy in Python and performs no truncation. -/
def applyLimit (limit : Option Nat) (pending : List Mig) : List Mig :=
  match limit with
  | some n => if n ≠ 0 then pending.take n else pending
  | none => pending

/-- The pending list of `apply_migrations`: corpus entries whose id is not
in the applied set. -/
def pendingOf (files : List (String × String)) (ledger : List Row) : List Mig :=
  (get_migration_files files).filter
    (fun m => !((get_applied_migrations ledger).contains m.id))

/-- core.py `apply_migrations(limit, env, dry_run=False)`: dirty check,
pending diff, truthiness-based limit truncation, then the loop. -/
def apply_migrations (db : String → Bool) (sqlsplit : String → List String)
    (sha : String → String) (files : List (String × String)) (limit : Option Nat)
    (st : EngineState) : RunResult :=
  match check_failed_migrations st.ledger with
  | f :: fs => ⟨some (.dirtyState (f :: fs)), st⟩
  | [] =>
    match pendingOf files st.ledger with
    | [] => ⟨none, st⟩
    | p :: ps => applyLoop db sqlsplit sha st (applyLimit limit (p :: ps))

/-- The `id_to_path` dict lookup of `rollback_migrations`: a dict built
from the corpus keeps the last entry per id. -/
def lastAssoc (corpus : List Mig) (id : String) : Option Mig :=
  corpus.reverse.find? (fun m => m.id == id)

/-- The non-transactional branch of the rollback body: on a down failure
nothing is deleted and the autocommit flag is left set; on success the row
is deleted, the DOWN audit row appended and autocommit reset.  The
checksum argument is recomputed by the caller from the file content. -/
def rollbackStepNoTxn (db : String → Bool) (sqlsplit : String → List String)
    (st : EngineState) (r : Row) (checksum down_sql : String) : RunResult :=
  match runStmts db (splitStmts sqlsplit down_sql) with
  | (issued, some s) =>
    ⟨some (.sqlError s), { st with executed := st.executed ++ issued, autocommit := true }⟩
  | (issued, none) =>
    ⟨none,
      { st with
        executed := st.executed ++ issued,
        ledger := deleteRow st.ledger r.id,
        auditLog := st.auditLog ++ [⟨r.id, r.name, "DOWN", "system", checksum⟩],
        autocommit := false }⟩

/-- The transactional branch of the rollback body: the down SQL (when
non-blank), the ledger DELETE and the audit INSERT commit or roll back as
one block. -/
def rollbackStepTxn (db : String → Bool) (st : EngineState) (r : Row)
    (checksum down_sql : String) : RunResult :=
  let st1 := if pyStrip down_sql ≠ "" then { st with executed := st.executed ++ [down_sql] } else st
  if pyStrip down_sql ≠ "" ∧ db down_sql = false then
    ⟨some (.sqlError down_sql), st1⟩
  else
    ⟨none,
      { st1 with
        ledger := deleteRow st.ledger r.id,
        auditLog := st.auditLog ++ [⟨r.id, r.name, "DOWN", "system", checksum⟩] }⟩

/-- The per-row body of the rollback loop (`dry_run=False` path): missing
file aborts, otherwise the down SQL runs in the mode the script demands,
then the ledger row is deleted and the DOWN audit row appended. -/
def rollbackStep (db : String → Bool) (sqlsplit : String → List String)
    (sha : String → String) (corpus : List Mig) (st : EngineState) (r : Row) :
    RunResult :=
  match lastAssoc corpus r.id with
  | none => ⟨some (.missingFile r.id), st⟩
  | some m =>
    let p := parse_migration_sql m.content
    if p.2.2 then rollbackStepNoTxn db sqlsplit st r (sha m.content) p.2.1
    else rollbackStepTxn db st r (sha m.content) p.2.1

/-- The rollback loop over the targeted rows, newest first. -/
def rollbackLoop (db : String → Bool) (sqlsplit : String → List String)
    (sha : String → String) (corpus : List Mig) (st : EngineState) :
    List Row → RunResult
  | [] => ⟨none, st⟩
  | r :: rest =>
    match rollbackStep db sqlsplit sha corpus st r with
    | ⟨some e, st1⟩ => ⟨some e, st1⟩
    | ⟨none, st1⟩ => rollbackLoop db sqlsplit sha corpus st1 rest

/-- core.py `rollback_migrations(steps, env, dry_run=False)`: note that no
dirty-state check is performed here; the loop walks the newest
`steps` applied rows. -/
def rollback_migrations (db : String → Bool) (sqlsplit : String → List String)
    (sha : String → String) (files : List (String × String)) (steps : Nat)
    (st : EngineState) : RunResult :=
  match get_applied_migrations_details st.ledger with
  | [] => ⟨none, st⟩
  | a :: as =>
    rollbackLoop db sqlsplit sha (get_migration_files files) st ((a :: as).take steps)

/-- squash.py `cmd_squash`: after the pending diff and the size guards, the
concatenation loop calls `parse_migration_sql(content, filepath)` — but
core.py defines `parse_migration_sql` with a single parameter, so the call
raises TypeError before the backup / write / delete sequence is reached.
No dirty-state check is performed here either.  The result pairs the
propagated error with the (unchanged) scripts directory. -/
def cmd_squash (files : List (String × String)) (ledger : List Row) :
    Option MgError × List (String × String) :=
  let applied_ids := get_applied_migrations ledger
  let pending := (get_migration_files files).filter
    (fun m => !(applied_ids.contains m.id))
  if pending.isEmpty then (none, files)
  else if pending.length < 2 then (none, files)
  else
    (some (.typeErr "parse_migration_sql() takes 1 positional argument but 2 were given"),
      files)

/-- Lookup in the modelled scripts directory (path to content). -/
def lookupFile (fs : List (String × String)) (path : String) : Option String :=
  (fs.find? (fun e => e.1 == path)).map (·.2)

/-- Remove a path from the modelled directory. -/
def removeFile (fs : List (String × String)) (path : String) : List (String × String) :=
  fs.filter (fun e => !(e.1 == path))

/-- io_utils.py `atomic_write(filepath, exclusive=...)` with the body of
the `with` block abstracted as either the content it writes or the
exception it raises: the exclusive check fires before the temp file is
created; on a body error the temp file is removed; on success the temp
file is renamed over the destination. -/
def atomic_write (fs : List (String × String)) (filepath tempPath : String)
    (exclusive : Bool) (body : Except String String) :
    Option String × List (String × String) :=
  if exclusive && (lookupFile fs filepath).isSome then
    (some ("File already exists: " ++ filepath), fs)
  else
    match body with
    | .error e => (some e, removeFile (fs ++ [(tempPath, "")]) tempPath)
    | .ok content =>
      (none, removeFile (removeFile (fs ++ [(tempPath, content)]) tempPath) filepath
        ++ [(filepath, content)])

/-! Helper lemmas about the execution loops. -/

/-- The UP audit row a successful apply of a migration appends. -/
def upLog (sha : String → String) (m : Mig) : LogRow :=
  ⟨m.id, m.name, "UP", "system", sha m.content⟩

theorem runStmts_all_ok (db : String → Bool) (hdb : ∀ s, db s = true) :
    ∀ l : List String, runStmts db l = (l, none)
  | [] => rfl
  | s :: rest => by
    simp only [runStmts, hdb s, if_true, runStmts_all_ok db hdb rest]

theorem upsertApplied_of_not_mem {ledger : List Row} {id : String}
    (h : ∀ r ∈ ledger, r.id ≠ id) (name cs : String) (now : Nat) :
    upsertApplied ledger id name cs now = ledger ++ [⟨id, name, cs, "applied", now⟩] := by
  unfold upsertApplied
  rw [if_neg]
  simp only [List.any_eq_true, beq_iff_eq, not_exists, not_and]
  intro r hr
  exact fun hid => h r hr hid

theorem applyStepNoTxn_eq_ok {db : String → Bool} {sqlsplit : String → List String}
    {sha : String → String} {st : EngineState} {m : Mig} {up_sql : String}
    {issued : List String}
    (h : runStmts db (splitStmts sqlsplit up_sql) = (issued, none)) :
    applyStepNoTxn db sqlsplit sha st m up_sql =
      ⟨none,
        { st with
          executed := st.executed ++ issued,
          ledger := upsertApplied st.ledger m.id m.name (sha m.content) st.clock,
          auditLog := st.auditLog ++ [upLog sha m],
          autocommit := false,
          clock := st.clock + 1 }⟩ := by
  unfold applyStepNoTxn
  rw [h]
  rfl

theorem applyStepNoTxn_eq_fail {db : String → Bool} {sqlsplit : String → List String}
    {sha : String → String} {st : EngineState} {m : Mig} {up_sql : String}
    {issued : List String} {s : String}
    (h : runStmts db (splitStmts sqlsplit up_sql) = (issued, some s)) :
    applyStepNoTxn db sqlsplit sha st m up_sql =
      ⟨some (.sqlError s),
        { st with
          executed := st.executed ++ issued,
          ledger := upsertFailed st.ledger m.id m.name (sha m.content) st.clock,
          autocommit := true,
          clock := st.clock + 1 }⟩ := by
  unfold applyStepNoTxn
  rw [h]

theorem applyStepTxn_autocommit (db : String → Bool) (sha : String → String)
    (st : EngineState) (m : Mig) (up_sql : String) :
    (applyStepTxn db sha st m up_sql).st.autocommit = st.autocommit := by
  unfold applyStepTxn
  split_ifs <;> rfl

theorem applyStepTxn_eq_blank {db : String → Bool} {sha : String → String}
    {st : EngineState} {m : Mig} {up_sql : String}
    (h1 : pyStrip up_sql = "")
    (h2 : (st.ledger.any fun r => r.id == m.id) = false) :
    applyStepTxn db sha st m up_sql =
      ⟨none,
        { st with
          ledger := st.ledger ++ [⟨m.id, m.name, sha m.content, "applied", st.clock⟩],
          clock := st.clock + 1,
          auditLog := st.auditLog ++ [upLog sha m] }⟩ := by
  simp [applyStepTxn, h1, h2, upLog]

theorem applyStepTxn_eq_run {db : String → Bool} {sha : String → String}
    {st : EngineState} {m : Mig} {up_sql : String}
    (h1 : pyStrip up_sql ≠ "") (h2 : db up_sql = true)
    (h3 : (st.ledger.any fun r => r.id == m.id) = false) :
    applyStepTxn db sha st m up_sql =
      ⟨none,
        { st with
          executed := st.executed ++ [up_sql],
          ledger := st.ledger ++ [⟨m.id, m.name, sha m.content, "applied", st.clock⟩],
          clock := st.clock + 1,
          auditLog := st.auditLog ++ [upLog sha m] }⟩ := by
  simp [applyStepTxn, h1, h2, h3, upLog]

theorem applyStepTxn_eq_sqlfail {db : String → Bool} {sha : String → String}
    {st : EngineState} {m : Mig} {up_sql : String}
    (h1 : pyStrip up_sql ≠ "") (h2 : db up_sql = false) :
    applyStepTxn db sha st m up_sql =
      ⟨some (.sqlError up_sql), { st with executed := st.executed ++ [up_sql] }⟩ := by
  simp [applyStepTxn, h1, h2]

/-- A successful apply step: no error, one UP audit row appended, the id
appended to the ledger ids. -/
theorem applyStep_ok (db : String → Bool) (sqlsplit : String → List String)
    (sha : String → String) (st : EngineState) (m : Mig)
    (hdb : ∀ s, db s = true) (hnotin : ∀ r ∈ st.ledger, r.id ≠ m.id) :
    (applyStep db sqlsplit sha st m).err = none ∧
    (applyStep db sqlsplit sha st m).st.auditLog = st.auditLog ++ [upLog sha m] ∧
    (applyStep db sqlsplit sha st m).st.ledger.map (·.id) =
      st.ledger.map (·.id) ++ [m.id] := by
  have hany : (st.ledger.any fun r => r.id == m.id) = false := by
    simp only [List.any_eq_false, beq_iff_eq]
    exact hnotin
  unfold applyStep
  by_cases hnt : (parse_migration_sql m.content).2.2 = true
  · rw [if_pos hnt, applyStepNoTxn_eq_ok (runStmts_all_ok db hdb _)]
    refine ⟨rfl, rfl, ?_⟩
    rw [upsertApplied_of_not_mem hnotin]
    simp
  · rw [if_neg hnt]
    by_cases hup : pyStrip (parse_migration_sql m.content).1 = ""
    · rw [applyStepTxn_eq_blank hup hany]
      exact ⟨rfl, rfl, by simp⟩
    · rw [applyStepTxn_eq_run hup (hdb _) hany]
      exact ⟨rfl, rfl, by simp⟩

/-- A successful apply step leaves autocommit false when it started
false. -/
theorem applyStep_ok_autocommit (db : String → Bool) (sqlsplit : String → List String)
    (sha : String → String) (st : EngineState) (m : Mig)
    (hac : st.autocommit = false)
    (hok : (applyStep db sqlsplit sha st m).err = none) :
    (applyStep db sqlsplit sha st m).st.autocommit = false := by
  unfold applyStep at hok ⊢
  by_cases hnt : (parse_migration_sql m.content).2.2 = true
  · rw [if_pos hnt] at hok ⊢
    rcases h : runStmts db (splitStmts sqlsplit (parse_migration_sql m.content).1)
      with ⟨issued, e⟩
    cases e with
    | some s =>
      rw [applyStepNoTxn_eq_fail h] at hok
      simp at hok
    | none =>
      rw [applyStepNoTxn_eq_ok h]
  · rw [if_neg hnt] at hok ⊢
    rw [applyStepTxn_autocommit]
    exact hac

theorem rollbackStepNoTxn_eq_ok {db : String → Bool} {sqlsplit : String → List String}
    {st : EngineState} {r : Row} {checksum down_sql : String} {issued : List String}
    (h : runStmts db (splitStmts sqlsplit down_sql) = (issued, none)) :
    rollbackStepNoTxn db sqlsplit st r checksum down_sql =
      ⟨none,
        { st with
          executed := st.executed ++ issued,
          ledger := deleteRow st.ledger r.id,
          auditLog := st.auditLog ++ [⟨r.id, r.name, "DOWN", "system", checksum⟩],
          autocommit := false }⟩ := by
  unfold rollbackStepNoTxn
  rw [h]

theorem rollbackStepNoTxn_eq_fail {db : String → Bool} {sqlsplit : String → List String}
    {st : EngineState} {r : Row} {checksum down_sql : String} {issued : List String}
    {s : String}
    (h : runStmts db (splitStmts sqlsplit down_sql) = (issued, some s)) :
    rollbackStepNoTxn db sqlsplit st r checksum down_sql =
      ⟨some (.sqlError s),
        { st with executed := st.executed ++ issued, autocommit := true }⟩ := by
  unfold rollbackStepNoTxn
  rw [h]

theorem rollbackStepTxn_autocommit (db : String → Bool) (st : EngineState) (r : Row)
    (checksum down_sql : String) :
    (rollbackStepTxn db st r checksum down_sql).st.autocommit = st.autocommit := by
  unfold rollbackStepTxn
  split_ifs <;> rfl

theorem rollbackStepTxn_ok_parts {db : String → Bool} {st : EngineState} {r : Row}
    {checksum down_sql : String}
    (h : ¬(pyStrip down_sql ≠ "" ∧ db down_sql = false)) :
    (rollbackStepTxn db st r checksum down_sql).err = none ∧
    (rollbackStepTxn db st r checksum down_sql).st.ledger = deleteRow st.ledger r.id := by
  unfold rollbackStepTxn
  rw [if_neg h]
  exact ⟨rfl, rfl⟩

/-- A rollback step with the script file present and an all-success
database: no error and the targeted row deleted. -/
theorem rollbackStep_ok (db : String → Bool) (sqlsplit : String → List String)
    (sha : String → String) (corpus : List Mig) (st : EngineState) (r : Row)
    (hdb : ∀ s, db s = true) (m : Mig) (hm : lastAssoc corpus r.id = some m) :
    (rollbackStep db sqlsplit sha corpus st r).err = none ∧
    (rollbackStep db sqlsplit sha corpus st r).st.ledger = deleteRow st.ledger r.id := by
  unfold rollbackStep
  rw [hm]
  dsimp only
  by_cases hnt : (parse_migration_sql m.content).2.2 = true
  · rw [if_pos hnt, rollbackStepNoTxn_eq_ok (runStmts_all_ok db hdb _)]
    exact ⟨rfl, rfl⟩
  · rw [if_neg hnt]
    exact rollbackStepTxn_ok_parts (by simp [hdb _])

/-- A successful rollback step leaves autocommit false when it started
false. -/
theorem rollbackStep_ok_autocommit (db : String → Bool) (sqlsplit : String → List String)
    (sha : String → String) (corpus : List Mig) (st : EngineState) (r : Row)
    (hac : st.autocommit = false)
    (hok : (rollbackStep db sqlsplit sha corpus st r).err = none) :
    (rollbackStep db sqlsplit sha corpus st r).st.autocommit = false := by
  unfold rollbackStep at hok ⊢
  rcases hm : lastAssoc corpus r.id with _ | m
  · rw [hm] at hok
    simp at hok
  · rw [hm] at hok
    dsimp only at hok ⊢
    by_cases hnt : (parse_migration_sql m.content).2.2 = true
    · rw [if_pos hnt] at hok ⊢
      rcases h : runStmts db (splitStmts sqlsplit (parse_migration_sql m.content).2.1)
        with ⟨issued, e⟩
      cases e with
      | some s =>
        rw [rollbackStepNoTxn_eq_fail h] at hok
        simp at hok
      | none =>
        rw [rollbackStepNoTxn_eq_ok h]
    · rw [if_neg hnt] at hok ⊢
      rw [rollbackStepTxn_autocommit]
      exact hac

/-! Loop-level lemmas. -/

/-- The ledger after deleting the rows of a list in order. -/
def deleteIds (ledger : List Row) (rows : List Row) : List Row :=
  rows.foldl (fun l r => deleteRow l r.id) ledger

theorem applyLoop_ok (db : String → Bool) (sqlsplit : String → List String)
    (sha : String → String) (hdb : ∀ s, db s = true) :
    ∀ (l : List Mig) (st : EngineState),
    (∀ m ∈ l, ∀ r ∈ st.ledger, r.id ≠ m.id) → (l.map Mig.id).Nodup →
    (applyLoop db sqlsplit sha st l).err = none ∧
    (applyLoop db sqlsplit sha st l).st.auditLog = st.auditLog ++ l.map (upLog sha) ∧
    (applyLoop db sqlsplit sha st l).st.ledger.map (·.id) =
      st.ledger.map (·.id) ++ l.map Mig.id := by
  intro l
  induction l with
  | nil => intro st _ _; simp [applyLoop]
  | cons m rest ih =>
    intro st hdisj hnodup
    obtain ⟨he, ha, hl⟩ :=
      applyStep_ok db sqlsplit sha st m hdb (hdisj m (List.mem_cons_self m rest))
    unfold applyLoop
    rcases hstep : applyStep db sqlsplit sha st m with ⟨e, st1⟩
    rw [hstep] at he ha hl
    simp only at he ha hl
    subst he
    simp only
    have hnodup1 : m.id ∉ rest.map Mig.id ∧ (rest.map Mig.id).Nodup := by
      simpa [List.nodup_cons] using hnodup
    have hdisj1 : ∀ m2 ∈ rest, ∀ r ∈ st1.ledger, r.id ≠ m2.id := by
      intro m2 hm2 r hr hid
      have hmem : r.id ∈ st1.ledger.map (·.id) := List.mem_map_of_mem _ hr
      rw [hl] at hmem
      rcases List.mem_append.mp hmem with hmem | hmem
      · obtain ⟨r0, hr0, hr0id⟩ := List.mem_map.mp hmem
        exact hdisj m2 (List.mem_cons_of_mem m hm2) r0 hr0 (by rw [hr0id, hid])
      · have : r.id = m.id := by simpa using hmem
        exact hnodup1.1 (by
          rw [← this, hid]
          exact List.mem_map_of_mem Mig.id hm2)
    obtain ⟨ihe, iha, ihl⟩ := ih st1 hdisj1 hnodup1.2
    refine ⟨ihe, ?_, ?_⟩
    · rw [iha, ha]
      simp
    · rw [ihl, hl]
      simp

theorem applyLoop_autocommit (db : String → Bool) (sqlsplit : String → List String)
    (sha : String → String) :
    ∀ (l : List Mig) (st : EngineState), st.autocommit = false →
    (applyLoop db sqlsplit sha st l).err = none →
    (applyLoop db sqlsplit sha st l).st.autocommit = false := by
  intro l
  induction l with
  | nil => intro st hac _; simpa [applyLoop] using hac
  | cons m rest ih =>
    intro st hac hok
    unfold applyLoop at hok ⊢
    rcases hstep : applyStep db sqlsplit sha st m with ⟨e, st1⟩
    rw [hstep] at hok
    cases e with
    | some err => simp at hok
    | none =>
      dsimp only at hok ⊢
      have h1 : (applyStep db sqlsplit sha st m).st.autocommit = false := by
        apply applyStep_ok_autocommit db sqlsplit sha st m hac
        rw [hstep]
      rw [hstep] at h1
      exact ih st1 h1 hok

theorem rollbackLoop_autocommit (db : String → Bool) (sqlsplit : String → List String)
    (sha : String → String) (corpus : List Mig) :
    ∀ (l : List Row) (st : EngineState), st.autocommit = false →
    (rollbackLoop db sqlsplit sha corpus st l).err = none →
    (rollbackLoop db sqlsplit sha corpus st l).st.autocommit = false := by
  intro l
  induction l with
  | nil => intro st hac _; simpa [rollbackLoop] using hac
  | cons r rest ih =>
    intro st hac hok
    unfold rollbackLoop at hok ⊢
    rcases hstep : rollbackStep db sqlsplit sha corpus st r with ⟨e, st1⟩
    rw [hstep] at hok
    cases e with
    | some err => simp at hok
    | none =>
      dsimp only at hok ⊢
      have h1 : (rollbackStep db sqlsplit sha corpus st r).st.autocommit = false := by
        apply rollbackStep_ok_autocommit db sqlsplit sha corpus st r hac
        rw [hstep]
      rw [hstep] at h1
      exact ih st1 h1 hok

theorem rollbackLoop_until_missing (db : String → Bool) (sqlsplit : String → List String)
    (sha : String → String) (corpus : List Mig) (hdb : ∀ s, db s = true) :
    ∀ (done : List Row) (bad : Row) (rest : List Row) (st : EngineState),
    (∀ r ∈ done, (lastAssoc corpus r.id).isSome) →
    lastAssoc corpus bad.id = none →
    (rollbackLoop db sqlsplit sha corpus st (done ++ bad :: rest)).err =
      some (.missingFile bad.id) ∧
    (rollbackLoop db sqlsplit sha corpus st (done ++ bad :: rest)).st.ledger =
      deleteIds st.ledger done ∧
    (done = [] →
      rollbackLoop db sqlsplit sha corpus st (done ++ bad :: rest) =
        ⟨some (.missingFile bad.id), st⟩) := by
  intro done
  induction done with
  | nil =>
    intro bad rest st _ hbad
    have hstep : rollbackStep db sqlsplit sha corpus st bad =
        ⟨some (.missingFile bad.id), st⟩ := by
      unfold rollbackStep
      rw [hbad]
    simp only [List.nil_append]
    unfold rollbackLoop
    rw [hstep]
    exact ⟨rfl, rfl, fun _ => rfl⟩
  | cons r done ih =>
    intro bad rest st hdone hbad
    obtain ⟨m, hm⟩ := Option.isSome_iff_exists.mp (hdone r (List.mem_cons_self r done))
    obtain ⟨he, hl⟩ := rollbackStep_ok db sqlsplit sha corpus st r hdb m hm
    simp only [List.cons_append]
    unfold rollbackLoop
    rcases hstep : rollbackStep db sqlsplit sha corpus st r with ⟨e, st1⟩
    rw [hstep] at he hl
    simp only at he hl
    subst he
    simp only
    have hdone1 : ∀ r2 ∈ done, (lastAssoc corpus r2.id).isSome :=
      fun r2 hr2 => hdone r2 (List.mem_cons_of_mem r hr2)
    obtain ⟨ihe, ihl, _⟩ := ih bad rest st1 hdone1 hbad
    refine ⟨ihe, ?_, fun h => by cases h⟩
    rw [ihl, hl]
    rfl

/-! Lemmas about verify, head, status and atomic_write. -/

theorem verifyIssues_eq_nil_iff (sha : String → String) (lookupCs : String → Option String) :
    ∀ l : List Mig,
    verifyIssues sha lookupCs l = [] ↔
      ∀ m ∈ l, ∀ cs, lookupCs m.id = some cs → sha m.content = cs := by
  intro l
  induction l with
  | nil => simp [verifyIssues]
  | cons m rest ih =>
    unfold verifyIssues
    rcases hc : lookupCs m.id with _ | stored
    all_goals dsimp only
    · rw [ih]
      constructor
      · intro h m2 hm2 cs hcs
        rcases List.mem_cons.mp hm2 with hm2 | hm2
        · subst hm2; rw [hc] at hcs; cases hcs
        · exact h m2 hm2 cs hcs
      · intro h m2 hm2 cs hcs
        exact h m2 (List.mem_cons_of_mem m hm2) cs hcs
    · by_cases heq : sha m.content = stored
      · rw [if_pos heq, ih]
        constructor
        · intro h m2 hm2 cs hcs
          rcases List.mem_cons.mp hm2 with hm2 | hm2
          · subst hm2; rw [hc] at hcs; cases hcs; exact heq
          · exact h m2 hm2 cs hcs
        · intro h m2 hm2 cs hcs
          exact h m2 (List.mem_cons_of_mem m hm2) cs hcs
      · rw [if_neg heq]
        constructor
        · intro h
          exact absurd h (List.cons_ne_nil _ _)
        · intro h
          exact absurd (h m (List.mem_cons_self m rest) stored hc) heq

theorem mem_verifyIssues (sha : String → String) (lookupCs : String → Option String) :
    ∀ (l : List Mig) (m : Mig) (cs : String), m ∈ l →
    lookupCs m.id = some cs → sha m.content ≠ cs →
    ("Checksum mismatch for " ++ m.id ++ " (" ++ m.name ++ ")") ∈
      verifyIssues sha lookupCs l := by
  intro l
  induction l with
  | nil => intro m cs hm; cases hm
  | cons m2 rest ih =>
    intro m cs hm hc hne
    unfold verifyIssues
    rcases List.mem_cons.mp hm with hm | hm
    · subst hm
      rw [hc]
      dsimp only
      rw [if_neg hne]
      exact List.mem_cons_self _ _
    · rcases hc2 : lookupCs m2.id with _ | stored
      all_goals dsimp only
      · exact ih m cs hm hc hne
      · by_cases heq : sha m2.content = stored
        · rw [if_pos heq]
          exact ih m cs hm hc hne
        · rw [if_neg heq]
          exact List.mem_cons_of_mem _ (ih m cs hm hc hne)

theorem verify_checksums_fst_eq_true_iff (sha : String → String)
    (files : List (String × String)) (ledger : List Row) :
    (verify_checksums sha files ledger).1 = true ↔
      verifyIssues sha (appliedChecksum ledger) (get_migration_files files) = [] := by
  unfold verify_checksums
  rcases h : verifyIssues sha (appliedChecksum ledger) (get_migration_files files)
    with _ | ⟨i, is⟩
  · simp
  · simp

theorem verify_checksums_snd (sha : String → String)
    (files : List (String × String)) (ledger : List Row) :
    (verify_checksums sha files ledger).2 =
      verifyIssues sha (appliedChecksum ledger) (get_migration_files files) := by
  unfold verify_checksums
  rcases h : verifyIssues sha (appliedChecksum ledger) (get_migration_files files)
    with _ | ⟨i, is⟩
  · simp
  · simp

theorem sortNewestFirst_perm (l : List Row) : List.Perm (sortNewestFirst l) l :=
  List.perm_insertionSort newer l

theorem sortNewestFirst_sorted (l : List Row) : (sortNewestFirst l).Sorted newer :=
  List.sorted_insertionSort newer l

theorem get_migration_files_sorted (files : List (String × String)) :
    (get_migration_files files).Sorted migLe :=
  List.sorted_insertionSort migLe _

theorem removeFile_append_fresh (fs : List (String × String)) (p : String) (x : String)
    (h : lookupFile fs p = none) : removeFile (fs ++ [(p, x)]) p = fs := by
  unfold removeFile
  rw [List.filter_append]
  have h1 : ∀ e ∈ fs, (e.1 == p) = false := by
    intro e he
    have hf : fs.find? (fun e => e.1 == p) = none := by
      unfold lookupFile at h
      rcases hf2 : fs.find? (fun e => e.1 == p) with _ | e2
      · exact hf2
      · rw [hf2] at h; cases h
    have := List.find?_eq_none.mp hf e he
    simpa using this
  have h2 : fs.filter (fun e => !(e.1 == p)) = fs :=
    List.filter_eq_self.mpr (fun e he => by rw [h1 e he]; rfl)
  rw [h2]
  simp

/-! Concrete fixtures used by witnesses and counterexamples. -/

/-- Two well-formed migration scripts. -/
def exFiles : List (String × String) :=
  [("a_one.sql", "-- migrate: up\nCREATE A;\n-- migrate: down\nDROP A;\n"),
   ("b_two.sql", "-- migrate: up\nCREATE B;\n-- migrate: down\nDROP B;\n")]

/-- A stand-in hash for concrete evaluations (the engine is parametric in
the hash). -/
def idSha : String → String := fun s => s

/-- A database oracle on which every statement succeeds. -/
def okDb : String → Bool := fun _ => true

/-- A statement splitter that keeps the text as a single statement. -/
def oneSplit : String → List String := fun s => [s]

/-- The initial engine state: empty tables, autocommit off. -/
def st0 : EngineState := ⟨[], [], [], false, 0⟩

/-- A ledger in dirty state: one failed row and one applied row. -/
def dirtyLedger : List Row :=
  [⟨"a", "one", "ca", "failed", 1⟩, ⟨"b", "two", "cb", "applied", 2⟩]

/-- One non-transactional script whose single up statement fails on the
oracle that rejects BOOM. -/
def ntFiles : List (String × String) :=
  [("a_one.sql", "-- migrate: no-transaction\n-- migrate: up\nBOOM\n-- migrate: down\nDROP A;\n")]

/-- A script with no up marker at all. -/
def noMarkerScript : String :=
  "-- migration: Test\nCREATE TABLE test (id INT);\n-- migrate: down\nDROP TABLE test;\n"

/-- Two applied rows of which only the newer one has a script on disk. -/
def partialLedger : List Row :=
  [⟨"a", "one", "ca", "applied", 1⟩, ⟨"b", "two", "cb", "applied", 2⟩]

def bOnlyFiles : List (String × String) :=
  [("b_two.sql", "-- migrate: up\nCREATE B;\n-- migrate: down\nDROP B;\n")]

/-- An applied ledger row whose stored checksum does not match the file. -/
def wrongLedger : List Row := [⟨"a", "one", "WRONG", "applied", 1⟩]

/-! Claim theorems. -/

/-- C1 (amended): if the `_migrations` table holds a failed row when
`apply_migrations` starts, apply raises the dirty-state error and returns
with the state untouched: no migration SQL is executed and no ledger row
is inserted or deleted.  (Rollback and squash perform no such check; see
the counterexample.) -/
theorem apply_refuses_dirty_state (db : String → Bool) (sqlsplit : String → List String)
    (sha : String → String) (files : List (String × String)) (limit : Option Nat)
    (st : EngineState) (f : String × String) (fs : List (String × String))
    (h : check_failed_migrations st.ledger = f :: fs) :
    apply_migrations db sqlsplit sha files limit st = ⟨some (.dirtyState (f :: fs)), st⟩ := by
  unfold apply_migrations
  rw [h]

theorem apply_refuses_dirty_state_witness :
    apply_migrations okDb oneSplit idSha exFiles none ⟨dirtyLedger, [], [], false, 3⟩ =
      ⟨some (.dirtyState [("a", "one")]), ⟨dirtyLedger, [], [], false, 3⟩⟩ :=
  apply_refuses_dirty_state okDb oneSplit idSha exFiles none
    ⟨dirtyLedger, [], [], false, 3⟩ ("a", "one") [] (by decide)

/-- C1 counterexample: with a failed row present, `rollback_migrations`
does not refuse: it executes the down SQL of the newest applied migration
and deletes its ledger row. -/
theorem rollback_proceeds_despite_dirty_state :
    check_failed_migrations dirtyLedger = [("a", "one")] ∧
    rollback_migrations okDb oneSplit idSha exFiles 1 ⟨dirtyLedger, [], [], false, 3⟩ =
      ⟨none, ⟨[⟨"a", "one", "ca", "failed", 1⟩],
        [⟨"b", "two", "DOWN", "system",
          "-- migrate: up\nCREATE B;\n-- migrate: down\nDROP B;\n"⟩],
        ["DROP B;"], false, 3⟩⟩ := by decide

/-- C2 (amended): when an apply or rollback returns without error and the
connection started with autocommit off, the flag is off again on return;
on the statement-failure path the flag stays set (see the
counterexample). -/
theorem autocommit_restored_on_success (db : String → Bool)
    (sqlsplit : String → List String) (sha : String → String)
    (files : List (String × String)) (limit : Option Nat) (steps : Nat)
    (st : EngineState) (hac : st.autocommit = false) :
    ((apply_migrations db sqlsplit sha files limit st).err = none →
      (apply_migrations db sqlsplit sha files limit st).st.autocommit = false) ∧
    ((rollback_migrations db sqlsplit sha files steps st).err = none →
      (rollback_migrations db sqlsplit sha files steps st).st.autocommit = false) := by
  constructor
  · intro hok
    unfold apply_migrations at hok ⊢
    rcases hcf : check_failed_migrations st.ledger with _ | ⟨f, fs⟩
    · rw [hcf] at hok
      dsimp only at hok ⊢
      rcases hp : pendingOf files st.ledger with _ | ⟨p, ps⟩
      · rw [hp] at hok
        dsimp only at hok ⊢
        exact hac
      · rw [hp] at hok
        dsimp only at hok ⊢
        exact applyLoop_autocommit db sqlsplit sha _ st hac hok
    · rw [hcf] at hok
      simp at hok
  · intro hok
    unfold rollback_migrations at hok ⊢
    rcases hd : get_applied_migrations_details st.ledger with _ | ⟨a, as⟩
    · rw [hd] at hok
      dsimp only at hok ⊢
      exact hac
    · rw [hd] at hok
      dsimp only at hok ⊢
      exact rollbackLoop_autocommit db sqlsplit sha _ _ st hac hok

theorem autocommit_restored_on_success_witness :
    (apply_migrations okDb oneSplit idSha exFiles none st0).st.autocommit = false ∧
    (rollback_migrations okDb oneSplit idSha exFiles 1
      ⟨[⟨"a", "one", "ca", "applied", 1⟩], [], [], false, 2⟩).st.autocommit = false :=
  ⟨(autocommit_restored_on_success okDb oneSplit idSha exFiles none 1 st0 rfl).1
      (by decide),
   (autocommit_restored_on_success okDb oneSplit idSha exFiles none 1
      ⟨[⟨"a", "one", "ca", "applied", 1⟩], [], [], false, 2⟩ rfl).2 (by decide)⟩

/-- C2 counterexample: a failing statement of a non-transactional
migration propagates the SQL error with the autocommit flag still set to
true: the flag is not restored on the error exit path. -/
theorem autocommit_left_set_on_sql_error :
    (apply_migrations (fun s => !(s == "BOOM")) oneSplit idSha ntFiles none st0).err =
      some (.sqlError "BOOM") ∧
    (apply_migrations (fun s => !(s == "BOOM")) oneSplit idSha ntFiles none st0).st.autocommit =
      true := by decide

/-- C3: `parse_migration_sql` never raises.  On a script with no
up marker it returns empty up SQL with no error, and `apply_migrations`
then records the migration as applied while issuing no SQL at all (the
oracle rejecting every statement is never consulted).  The tests of the
repository (tests/test_core.py) instead expect a ValueError naming the
missing marker, and the spec expects the apply to abort. -/
theorem parse_missing_up_marker_returns_normally :
    parse_migration_sql noMarkerScript = ("", "DROP TABLE test;", false) ∧
    apply_migrations (fun _ => false) oneSplit idSha [("a_t.sql", noMarkerScript)] none st0 =
      ⟨none, ⟨[⟨"a", "t", noMarkerScript, "applied", 0⟩],
        [⟨"a", "t", "UP", "system", noMarkerScript⟩], [], false, 1⟩⟩ := by decide

/-- C4: `verify_checksums` returns true exactly when, for every corpus
file whose id has an applied ledger row, the recomputed checksum of the
file content equals the stored checksum; and every mismatch contributes an
issue line naming the migration id and name. -/
theorem verify_checksums_true_iff_all_match (sha : String → String)
    (files : List (String × String)) (ledger : List Row) :
    ((verify_checksums sha files ledger).1 = true ↔
      ∀ m ∈ get_migration_files files, ∀ cs,
        appliedChecksum ledger m.id = some cs → sha m.content = cs) ∧
    (∀ m ∈ get_migration_files files, ∀ cs,
      appliedChecksum ledger m.id = some cs → sha m.content ≠ cs →
      ("Checksum mismatch for " ++ m.id ++ " (" ++ m.name ++ ")") ∈
        (verify_checksums sha files ledger).2) := by
  constructor
  · rw [verify_checksums_fst_eq_true_iff]
    exact verifyIssues_eq_nil_iff sha (appliedChecksum ledger) _
  · intro m hm cs hc hne
    rw [verify_checksums_snd]
    exact mem_verifyIssues sha (appliedChecksum ledger) _ m cs hm hc hne

theorem verify_checksums_true_iff_all_match_witness :
    ("Checksum mismatch for " ++ "a" ++ " (" ++ "one" ++ ")") ∈
      (verify_checksums idSha exFiles wrongLedger).2 :=
  (verify_checksums_true_iff_all_match idSha exFiles wrongLedger).2
    ⟨"a", "one", "-- migrate: up\nCREATE A;\n-- migrate: down\nDROP A;\n"⟩
    (by decide) "WRONG" (by decide) (by decide)

/-- C5 (amended): rollback aborts with the missing-file error when the
loop reaches the first targeted migration whose script is not on disk;
the targeted migrations processed before it (the newer ones) have already
had their rows deleted, and when the first targeted migration is the
missing one the state is returned wholly unchanged. -/
theorem rollback_aborts_at_first_missing_script (db : String → Bool)
    (sqlsplit : String → List String) (sha : String → String)
    (files : List (String × String)) (steps : Nat) (st : EngineState)
    (done : List Row) (bad : Row) (rest : List Row)
    (hdb : ∀ s, db s = true)
    (h : (get_applied_migrations_details st.ledger).take steps = done ++ bad :: rest)
    (hdone : ∀ r ∈ done, (lastAssoc (get_migration_files files) r.id).isSome)
    (hbad : lastAssoc (get_migration_files files) bad.id = none) :
    (rollback_migrations db sqlsplit sha files steps st).err =
      some (.missingFile bad.id) ∧
    (rollback_migrations db sqlsplit sha files steps st).st.ledger =
      deleteIds st.ledger done ∧
    (done = [] → rollback_migrations db sqlsplit sha files steps st =
      ⟨some (.missingFile bad.id), st⟩) := by
  unfold rollback_migrations
  rcases hd : get_applied_migrations_details st.ledger with _ | ⟨a, as⟩
  · rw [hd, List.take_nil] at h
    exact absurd h.symm (by simp)
  · rw [hd] at h
    dsimp only
    rw [h]
    exact rollbackLoop_until_missing db sqlsplit sha _ hdb done bad rest st hdone hbad

theorem rollback_aborts_at_first_missing_script_witness :
    rollback_migrations okDb oneSplit idSha [] 1
      ⟨[⟨"a", "one", "ca", "applied", 1⟩], [], [], false, 2⟩ =
      ⟨some (.missingFile "a"), ⟨[⟨"a", "one", "ca", "applied", 1⟩], [], [], false, 2⟩⟩ :=
  (rollback_aborts_at_first_missing_script okDb oneSplit idSha [] 1
    ⟨[⟨"a", "one", "ca", "applied", 1⟩], [], [], false, 2⟩
    [] ⟨"a", "one", "ca", "applied", 1⟩ []
    (fun _ => rfl) (by decide) (by simp) (by decide)).2.2 rfl

/-- C5 counterexample: rolling back two steps where only the newer script
exists on disk runs the down SQL of the newer migration and deletes its
row before aborting on the older one: the abort is not before any SQL and
the state is partial. -/
theorem rollback_missing_file_partial_state :
    rollback_migrations okDb oneSplit idSha bOnlyFiles 2 ⟨partialLedger, [], [], false, 3⟩ =
      ⟨some (.missingFile "a"), ⟨[⟨"a", "one", "ca", "applied", 1⟩],
        [⟨"b", "two", "DOWN", "system",
          "-- migrate: up\nCREATE B;\n-- migrate: down\nDROP B;\n"⟩],
        ["DROP B;"], false, 3⟩⟩ := by decide

theorem applyLimit_nil (limit : Option Nat) : applyLimit limit [] = [] := by
  cases limit <;> simp [applyLimit]

theorem applyLimit_sublist (limit : Option Nat) (l : List Mig) :
    (applyLimit limit l).Sublist l := by
  cases limit with
  | none => exact List.Sublist.refl l
  | some n =>
    simp only [applyLimit]
    split
    · exact List.take_sublist n l
    · exact List.Sublist.refl l

/-- C6 (amended): on a clean ledger whose rows are all applied and a
corpus with distinct ids, a successful apply appends one UP audit row per
migration of `applyLimit limit (pendingOf files ledger)` in that order:
the corpus-ordered pending scripts, truncated to the first `limit`
entries when a nonzero limit is given (a limit of 0 is falsy in Python
and truncates nothing), and this list is ascending in id. -/
theorem apply_runs_pending_in_order (db : String → Bool)
    (sqlsplit : String → List String) (sha : String → String)
    (files : List (String × String)) (limit : Option Nat) (st : EngineState)
    (hdb : ∀ s, db s = true)
    (hwf : ∀ r ∈ st.ledger, r.status = "applied")
    (hnodup : ((get_migration_files files).map Mig.id).Nodup) :
    (apply_migrations db sqlsplit sha files limit st).err = none ∧
    (apply_migrations db sqlsplit sha files limit st).st.auditLog =
      st.auditLog ++ (applyLimit limit (pendingOf files st.ledger)).map (upLog sha) ∧
    (applyLimit limit (pendingOf files st.ledger)).Sorted migLe := by
  have hcf : check_failed_migrations st.ledger = [] := by
    have hfil : st.ledger.filter (fun r => r.status == "failed") = [] :=
      List.filter_eq_nil_iff.mpr (fun r hr => by simp [hwf r hr])
    simp [check_failed_migrations, hfil]
  have hsub : (applyLimit limit (pendingOf files st.ledger)).Sublist
      (get_migration_files files) :=
    (applyLimit_sublist limit _).trans (List.filter_sublist _)
  have hsorted : (applyLimit limit (pendingOf files st.ledger)).Sorted migLe :=
    (get_migration_files_sorted files).sublist hsub
  have hnodup2 : ((applyLimit limit (pendingOf files st.ledger)).map Mig.id).Nodup :=
    (hsub.map Mig.id).nodup hnodup
  have hdisj : ∀ m ∈ applyLimit limit (pendingOf files st.ledger),
      ∀ r ∈ st.ledger, r.id ≠ m.id := by
    intro m hm r hr
    have hmp : m ∈ pendingOf files st.ledger :=
      (applyLimit_sublist limit _).subset hm
    have hnc := (List.mem_filter.mp hmp).2
    intro hid
    have hmem : m.id ∈ get_applied_migrations st.ledger := by
      unfold get_applied_migrations
      have : r ∈ st.ledger.filter (fun r => r.status == "applied") :=
        List.mem_filter.mpr ⟨hr, by simp [hwf r hr]⟩
      rw [← hid]
      exact List.mem_map_of_mem _ this
    simp [hmem] at hnc
  unfold apply_migrations
  rw [hcf]
  dsimp only
  rcases hp : pendingOf files st.ledger with _ | ⟨p, ps⟩
  · rw [hp] at hsorted
    dsimp only
    rw [applyLimit_nil]
    exact ⟨rfl, by simp, List.sorted_nil⟩
  · rw [hp] at hsorted hdisj hnodup2
    dsimp only
    obtain ⟨l1, l2, _⟩ :=
      applyLoop_ok db sqlsplit sha hdb (applyLimit limit (p :: ps)) st hdisj hnodup2
    exact ⟨l1, l2, hsorted⟩

theorem apply_runs_pending_in_order_witness :
    (apply_migrations okDb oneSplit idSha exFiles (some 1) st0).err = none ∧
    (apply_migrations okDb oneSplit idSha exFiles (some 1) st0).st.auditLog =
      st0.auditLog ++ (applyLimit (some 1) (pendingOf exFiles st0.ledger)).map (upLog idSha) ∧
    (applyLimit (some 1) (pendingOf exFiles st0.ledger)).Sorted migLe :=
  apply_runs_pending_in_order okDb oneSplit idSha exFiles (some 1) st0
    (fun _ => rfl) (by decide) (by decide)

/-- C6 counterexample: with two pending scripts, `apply_migrations` with
`limit = 0` applies both of them (the Python truthiness check treats 0
like no limit), not none. -/
theorem apply_limit_zero_applies_all :
    (apply_migrations okDb oneSplit idSha exFiles (some 0) st0).err = none ∧
    (apply_migrations okDb oneSplit idSha exFiles (some 0) st0).st.auditLog.map
      (·.migration_id) = ["a", "b"] := by decide

/-- C7 (amended): `get_migration_status` returns one entry per corpus file
in corpus order, whose status is the ledger status when a ledger row with
that id exists and "pending" otherwise.  Ids present only in the ledger
produce no entry (see the counterexample). -/
theorem status_lists_corpus_ids_with_ledger_status (ledger : List Row)
    (files : List (String × String)) :
    (get_migration_status ledger files).map (fun e => e.1) =
      (get_migration_files files).map Mig.id ∧
    ∀ e ∈ get_migration_status ledger files,
      ∃ m ∈ get_migration_files files, e = (m.id, m.name,
        ((ledger.reverse.find? (fun r => r.id == m.id)).map (·.status)).getD "pending") := by
  constructor
  · unfold get_migration_status
    rw [List.map_map]
    apply List.map_congr_left
    intro m _
    dsimp only [Function.comp]
    rcases h : ledger.reverse.find? (fun r => r.id == m.id) with _ | r <;> rw [h]
  · intro e he
    obtain ⟨m, hm, hme⟩ := List.mem_map.mp he
    refine ⟨m, hm, ?_⟩
    rw [← hme]
    rcases h : ledger.reverse.find? (fun r => r.id == m.id) with _ | r <;> rw [h] <;> rfl

theorem status_lists_corpus_ids_with_ledger_status_witness :
    ∃ m ∈ get_migration_files exFiles,
      (("a", "one", "pending") : String × String × String) = (m.id, m.name,
        ((([] : List Row).reverse.find? (fun r => r.id == m.id)).map (·.status)).getD
          "pending") :=
  (status_lists_corpus_ids_with_ledger_status [] exFiles).2 ("a", "one", "pending")
    (by decide)

/-- C7 counterexample: an id recorded in the ledger but with no file on
disk is absent from the status report, although the claim requires an
entry for it with its ledger status. -/
theorem status_omits_ledger_only_id :
    get_migration_status [⟨"x", "gone", "cx", "applied", 1⟩] [] = [] := by decide

/-- C8: every non-dry-run squash of at least two pending scripts dies in
the concatenation loop: `cmd_squash` passes a second filepath argument to
`parse_migration_sql`, whose definition takes one parameter, so a
TypeError propagates before the backup, write, verify and delete steps,
leaving the scripts directory untouched (its own integration test,
tests/integration/test_squash.py, instead expects the squash to
succeed). -/
theorem squash_type_error_before_file_ops :
    cmd_squash exFiles [] =
      (some (.typeErr "parse_migration_sql() takes 1 positional argument but 2 were given"),
        exFiles) := by decide

/-- C9 (amended): `get_head` returns none exactly when the `_migrations`
table is empty, and otherwise the projection of a row of the table that is
newest under the (applied_at, id) descending order over ALL rows — the
query has no status filter, so a failed row can be returned (see the
counterexample). -/
theorem head_returns_newest_row_any_status (ledger : List Row) :
    (get_head ledger = none ↔ ledger = []) ∧
    ∀ i n t, get_head ledger = some (i, n, t) →
      ∃ r ∈ ledger, r.id = i ∧ r.name = n ∧ r.appliedAt = t ∧
        ∀ q ∈ ledger, newerB r q = true := by
  have hperm := sortNewestFirst_perm ledger
  have hsorted := sortNewestFirst_sorted ledger
  constructor
  · unfold get_head
    rcases hsl : sortNewestFirst ledger with _ | ⟨r0, tail⟩
    · rw [hsl] at hperm
      simp only [List.head?_nil, Option.map_none', true_iff]
      exact (hperm.symm.eq_nil)
    · rw [hsl] at hperm
      constructor
      · intro h
        rw [List.head?_cons] at h
        cases h
      · intro h
        rw [h] at hperm
        cases hperm.eq_nil
  · intro i n t h
    unfold get_head at h
    rcases hsl : sortNewestFirst ledger with _ | ⟨r0, tail⟩
    · rw [hsl] at h
      cases h
    · rw [hsl] at hperm hsorted h
      rw [List.head?_cons] at h
      simp only [Option.map_some', Option.some.injEq, Prod.mk.injEq] at h
      obtain ⟨h1, h2, h3⟩ := h
      refine ⟨r0, hperm.subset (List.mem_cons_self r0 tail), h1, h2, h3, ?_⟩
      intro q hq
      rcases List.mem_cons.mp (hperm.mem_iff.mpr hq) with hq2 | hq2
      · rw [hq2]
        exact newerB_refl r0
      · exact List.rel_of_sorted_cons hsorted q hq2

theorem head_returns_newest_row_any_status_witness :
    ∃ r ∈ [(⟨"a", "one", "ca", "applied", 1⟩ : Row)], r.id = "a" ∧ r.name = "one" ∧
      r.appliedAt = 1 ∧ ∀ q ∈ [(⟨"a", "one", "ca", "applied", 1⟩ : Row)], newerB r q = true :=
  (head_returns_newest_row_any_status [⟨"a", "one", "ca", "applied", 1⟩]).2
    "a" "one" 1 (by decide)

/-- C9 counterexample: when the newest row of the ledger has
status failed, `get_head` returns that failed row (the single applied row
is older and is not returned). -/
theorem head_returns_failed_row :
    get_head [⟨"a", "one", "ca", "applied", 1⟩, ⟨"b", "two", "cb", "failed", 2⟩] =
      some ("b", "two", 2) := by decide

/-- C10: the exclusive-create check of `atomic_write` fires before
anything is written and leaves the directory untouched, and when the write
body raises, the temporary file is removed and the directory — the
destination file in particular — is exactly as before. -/
theorem atomic_write_exclusive_guard_and_error_cleanup
    (fs : List (String × String)) (filepath tempPath : String)
    (body : Except String String) :
    (∀ c, lookupFile fs filepath = some c →
      atomic_write fs filepath tempPath true body =
        (some ("File already exists: " ++ filepath), fs)) ∧
    (∀ e excl, body = .error e → lookupFile fs tempPath = none →
      (atomic_write fs filepath tempPath excl body).2 = fs) := by
  constructor
  · intro c hc
    unfold atomic_write
    rw [if_pos (by simp [hc])]
  · intro e excl hbody hfresh
    subst hbody
    unfold atomic_write
    by_cases hex : (excl && (lookupFile fs filepath).isSome) = true
    · rw [if_pos hex]
    · rw [if_neg hex]
      dsimp only
      exact removeFile_append_fresh fs tempPath "" hfresh

theorem atomic_write_exclusive_guard_and_error_cleanup_witness :
    atomic_write [("d.sql", "old")] "d.sql" "tmp0" true (.ok "new") =
      (some ("File already exists: " ++ "d.sql"), [("d.sql", "old")]) ∧
    (atomic_write [("d.sql", "old")] "d.sql" "tmp0" false (.error "boom")).2 =
      [("d.sql", "old")] :=
  ⟨(atomic_write_exclusive_guard_and_error_cleanup [("d.sql", "old")] "d.sql" "tmp0"
      (.ok "new")).1 "old" (by decide),
   (atomic_write_exclusive_guard_and_error_cleanup [("d.sql", "old")] "d.sql" "tmp0"
      (.error "boom")).2 "boom" false rfl (by decide)⟩

end Migretti
